import Mathlib

/-!
Verification of the asynchronous split-task orchestrator of the
pdf-chapter-splitter repository (backend/src/services/task_service.py and
backend/src/services/pdf_splitter.py), as a shallow embedding in Lean 4.

Python strings are modelled as lists of code points (`Str`), `datetime`
values as abstract timestamps with an injective textual encoding
(`Datetime.isoformat` / `Datetime.fromisoformat`), the in-memory task dict
and the on-disk one-JSON-file-per-task directory as association lists, and
JSON documents as the inductive `JValue`.  External collaborators (the PDF
page-copy engine, the filesystem) enter as boolean success oracles, exactly
at the points where the Python code can raise.
-/

/-- Python `str` is modelled as a list of code points. -/
abbrev Str := List Char

/-- Decimal digit to character, as used by the textual timestamp encoding. -/
def digitChar (d : Nat) : Char :=
  Char.ofNat (48 + d)

/-- Character back to decimal digit. -/
def charDigit (c : Char) : Option Nat :=
  if 48 ≤ c.toNat ∧ c.toNat ≤ 57 then some (c.toNat - 48) else none

/-- Fuel-based big-endian decimal rendering of a natural number
(empty for 0; the fuel is an upper bound on the number). -/
def natCharsAux (fuel : Nat) (n : Nat) : List Char :=
  match fuel, n with
  | _, 0 => []
  | 0, _ => []
  | f + 1, m => natCharsAux f (m / 10) ++ [digitChar (m % 10)]

/-- Big-endian decimal rendering of a natural number (empty for 0). -/
def natChars (n : Nat) : List Char :=
  natCharsAux n n

/-- Model of Python `str(n)` for a natural number. -/
def natRepr (n : Nat) : List Char :=
  if n = 0 then ['0'] else natChars n

/-- Accumulator-based decimal parser. -/
def charsNatAux (acc : Nat) : List Char → Option Nat
  | [] => some acc
  | c :: cs =>
    match charDigit c with
    | some d => charsNatAux (acc * 10 + d) cs
    | none => none

/-- Decimal parser, the inverse of `natRepr`. -/
def charsNat (cs : List Char) : Option Nat :=
  charsNatAux 0 cs

/-- Model of the Python format `f-string` specifier `02d` (zero-padded to
width two), used for the chapter index prefix of output filenames. -/
def pad2 (n : Nat) : List Char :=
  if (natRepr n).length < 2 then '0' :: natRepr n else natRepr n

/-- Python `datetime` values, abstracted to a timestamp.  The orchestrator
only ever compares timestamps, serializes them with `isoformat` and parses
them back with `fromisoformat`. -/
structure Datetime where
  stamp : Nat
deriving DecidableEq, Repr

/-- Model of `datetime.isoformat()`: an injective textual encoding. -/
def Datetime.isoformat (d : Datetime) : Str :=
  natRepr d.stamp

/-- Model of `datetime.fromisoformat()`: parses the textual encoding,
failing on strings outside its range. -/
def Datetime.fromisoformat (cs : Str) : Option Datetime :=
  (charsNat cs).map Datetime.mk

/-- Task state enumeration.  Modelled from the spec: the `TaskStatus`
string-enum class referenced by task_service.py is not among the source
files; the spec fixes the four states `Pending | Processing | Completed |
Failed`, and the string values follow the repository's str-enum pattern
(`FileStatus` in models/schemas.py uses lowercase member values). -/
inductive TaskStatus where
  | pending
  | processing
  | completed
  | failed
deriving DecidableEq, Repr

/-- Serialized (JSON) value of a task status, following the repository's
lowercase str-enum convention. -/
def TaskStatus.toStr : TaskStatus → Str
  | .pending => "pending".data
  | .processing => "processing".data
  | .completed => "completed".data
  | .failed => "failed".data

/-- Chapter descriptor (models/schemas.py `ChapterInfo`), restricted to the
fields the split-task core reads: title, 1-based inclusive start page,
1-based inclusive end page.  The analyzer-side fields (`id`, `page_count`,
`sections`) are out of scope. -/
structure ChapterInfo where
  title : Str
  start_page : Nat
  end_page : Nat
deriving DecidableEq, Repr

/-- Pydantic validation of a chapter (Field ge=1 on pages, and
`model_post_init` rejecting `end_page < start_page`). -/
def ChapterInfo.valid (c : ChapterInfo) : Prop :=
  1 ≤ c.start_page ∧ c.start_page ≤ c.end_page

/-- Task record.  Modelled from the spec: the `SplitTask` pydantic model
class referenced by task_service.py is not among the source files; the
field list is the spec's Task Record data model (task_id, file_id,
chapters, status, progress, error_message, created_at, completed_at,
download_links). -/
structure SplitTask where
  task_id : Str
  file_id : Str
  chapters : List ChapterInfo
  status : TaskStatus
  progress : Nat
  error_message : Option Str
  created_at : Datetime
  completed_at : Option Datetime
  download_links : List Str
deriving DecidableEq, Repr

/-- The record built by `TaskService.create_split_task`: status `pending`,
progress 0, timestamps and optional fields at their creation defaults. -/
def newTask (task_id file_id : Str) (chapters : List ChapterInfo)
    (created : Datetime) : SplitTask :=
  { task_id := task_id
    file_id := file_id
    chapters := chapters
    status := .pending
    progress := 0
    error_message := none
    created_at := created
    completed_at := none
    download_links := [] }

/-- The characters stripped out by `PDFSplitter._sanitize_filename`. -/
def unsafeChars : List Char :=
  ['<', '>', ':', '"', '/', '\\', '|', '?', '*']

/-- The replacement pass of `_sanitize_filename`: each unsafe character
becomes an underscore (the sequential `str.replace` calls over distinct
characters amount to a pointwise map). -/
def replaceUnsafe (cs : Str) : Str :=
  cs.map (fun c => if c ∈ unsafeChars then '_' else c)

/-- Model of Python `str.strip()`: drop whitespace from both ends. -/
def pyStrip (cs : Str) : Str :=
  (((cs.dropWhile Char.isWhitespace).reverse.dropWhile Char.isWhitespace)).reverse

/-- Embedding of `PDFSplitter._sanitize_filename`: replace unsafe
characters, truncate to 50 characters, fall back to "chapter" when the
stripped result is empty, and return the stripped name. -/
def sanitize_filename (cs : Str) : Str :=
  let safe1 := replaceUnsafe cs
  let safe2 := if safe1.length > 50 then safe1.take 50 else safe1
  let safe3 := if pyStrip safe2 = [] then "chapter".data else safe2
  pyStrip safe3

/-- Output filename of chapter index `i` (0-based), mirroring the f-string
in `split_pdf`: two-digit 1-based index, underscore, sanitized title,
".pdf" extension. -/
def mkFilename (i : Nat) (title : Str) : Str :=
  pad2 (i + 1) ++ '_' :: (sanitize_filename title ++ ".pdf".data)

/-- The progress percentage reported after chapter index `i` (0-based) of
`total` chapters, mirroring `int((i + 1) / total * 100)`. -/
def chapterProgress (total i : Nat) : Nat :=
  (i + 1) * 100 / total

/-- The per-chapter loop of `PDFSplitter.split_pdf`, starting at chapter
index `i`.  `chapterOk i ch` tells whether the (external) page-copy and
file-save work for chapter `ch` at index `i` raises; on a raise the loop
logs and continues with the next chapter, appending neither a download
link nor a progress report.  Returns the accumulated download links and
the sequence of values passed to the progress callback, in order. -/
def splitChapters (total : Nat) (chapterOk : Nat → ChapterInfo → Bool) :
    Nat → List ChapterInfo → List Str × List Nat
  | _, [] => ([], [])
  | i, ch :: rest =>
    let r := splitChapters total chapterOk (i + 1) rest
    if chapterOk i ch then
      (mkFilename i ch.title :: r.1, chapterProgress total i :: r.2)
    else
      r

/-- Embedding of `PDFSplitter.split_pdf`.  `openOk` models whether opening
the source document (and the surrounding non-chapter work) raises; such an
error propagates to the caller.  On success, returns the download links
together with the progress-callback trace. -/
def split_pdf (openOk : Bool) (chapterOk : Nat → ChapterInfo → Bool)
    (chapters : List ChapterInfo) : Except Str (List Str × List Nat) :=
  if openOk then
    .ok (splitChapters chapters.length chapterOk 0 chapters)
  else
    .error "PDF拆分失败".data

/-- Embedding of `TaskService._update_task_progress`: look the task up in
the in-memory map; when present, set its progress and trigger an
asynchronous persistence write (the returned flag records whether a write
was triggered). -/
def update_task_progress (tasks : List (Str × SplitTask)) (task_id : Str)
    (progress : Nat) : List (Str × SplitTask) × Bool :=
  match tasks with
  | [] => ([], false)
  | (k, t) :: rest =>
    if k = task_id then
      ((k, { t with progress := progress }) :: rest, true)
    else
      let r := update_task_progress rest task_id progress
      ((k, t) :: r.1, r.2)

/-- The successive record snapshots persisted by the progress callback
during one task's split: each reported value overwrites `progress` on the
same record and is saved. -/
def processSnapshots (t : SplitTask) : List Nat → List SplitTask
  | [] => []
  | p :: ps =>
    let t2 := { t with progress := p }
    t2 :: processSnapshots t2 ps

/-- The fixed error message recorded when the source PDF is missing
(`文件不存在: ...` in `_process_split_task`). -/
def fileMissingMsg : Str := "文件不存在".data

/-- Embedding of `TaskService._process_split_task` as the ordered list of
record snapshots it persists: first the `processing`/0 transition, then
one snapshot per progress callback, then the terminal snapshot
(`completed` with progress 100 and the download links on success, `failed`
with an error message otherwise).  `fileExists` models the source-file
check; `openOk` and `chapterOk` are the split-engine oracles. -/
def process_split_task_trace (fileExists openOk : Bool)
    (chapterOk : Nat → ChapterInfo → Bool) (now : Datetime)
    (t : SplitTask) : List SplitTask :=
  let t1 := { t with status := TaskStatus.processing, progress := 0 }
  if fileExists then
    match split_pdf openOk chapterOk t1.chapters with
    | .ok r =>
      t1 :: (processSnapshots t1 r.2 ++
        [{ t1 with
            status := TaskStatus.completed
            progress := 100
            completed_at := some now
            download_links := r.1 }])
    | .error e =>
      t1 :: [{ t1 with
        status := TaskStatus.failed
        error_message := some e
        completed_at := some now }]
  else
    t1 :: [{ t1 with
      status := TaskStatus.failed
      error_message := some fileMissingMsg
      completed_at := some now }]

/-- The final record produced by `TaskService._process_split_task` (the
last snapshot of `process_split_task_trace`). -/
def process_split_task_final (fileExists openOk : Bool)
    (chapterOk : Nat → ChapterInfo → Bool) (now : Datetime)
    (t : SplitTask) : SplitTask :=
  let t1 := { t with status := TaskStatus.processing, progress := 0 }
  if fileExists then
    match split_pdf openOk chapterOk t1.chapters with
    | .ok r =>
      { t1 with
        status := TaskStatus.completed
        progress := 100
        completed_at := some now
        download_links := r.1 }
    | .error e =>
      { t1 with
        status := TaskStatus.failed
        error_message := some e
        completed_at := some now }
  else
    { t1 with
      status := TaskStatus.failed
      error_message := some fileMissingMsg
      completed_at := some now }

/-- All states a single task record passes through along the straight-line
lifecycle: the created (`pending`) record followed by every snapshot
persisted while processing it. -/
def taskStates (task_id file_id : Str) (chapters : List ChapterInfo)
    (created : Datetime) (fileExists openOk : Bool)
    (chapterOk : Nat → ChapterInfo → Bool) (now : Datetime) :
    List SplitTask :=
  newTask task_id file_id chapters created ::
    process_split_task_trace fileExists openOk chapterOk now
      (newTask task_id file_id chapters created)

/-- JSON documents, as written by `json.dump` and read back by
`json.load` in `_save_task` / `_load_existing_tasks`. -/
inductive JValue where
  | jnull
  | jstr (s : Str)
  | jnat (n : Nat)
  | jarr (xs : List JValue)
  | jobj (fields : List (Str × JValue))

/-- Association-list lookup, modelling both Python dict indexing and the
per-task snapshot directory. -/
def mapLookup {β : Type} (m : List (Str × β)) (k : Str) : Option β :=
  match m with
  | [] => none
  | (k2, v) :: rest => if k2 = k then some v else mapLookup rest k

/-- Association-list insertion with in-place replacement of an existing
key, modelling Python dict assignment and snapshot-file overwriting. -/
def mapInsert {β : Type} (m : List (Str × β)) (k : Str) (v : β) :
    List (Str × β) :=
  match m with
  | [] => [(k, v)]
  | (k2, v2) :: rest =>
    if k2 = k then (k2, v) :: rest else (k2, v2) :: mapInsert rest k v

/-- Association-list deletion, modelling Python dict `del` and snapshot
file removal. -/
def mapErase {β : Type} (m : List (Str × β)) (k : Str) : List (Str × β) :=
  m.filter (fun kv => decide (kv.1 ≠ k))

/-- Serialization of a chapter descriptor inside `model_dump()`. -/
def ChapterInfo.toJson (c : ChapterInfo) : JValue :=
  .jobj [("title".data, .jstr c.title),
         ("start_page".data, .jnat c.start_page),
         ("end_page".data, .jnat c.end_page)]

/-- The JSON document `_save_task` writes for a task: `model_dump()` with
the two datetime fields replaced by their `isoformat` strings. -/
def SplitTask.toJson (t : SplitTask) : JValue :=
  .jobj [("task_id".data, .jstr t.task_id),
         ("file_id".data, .jstr t.file_id),
         ("chapters".data, .jarr (t.chapters.map ChapterInfo.toJson)),
         ("status".data, .jstr t.status.toStr),
         ("progress".data, .jnat t.progress),
         ("error_message".data,
           match t.error_message with
           | some m => .jstr m
           | none => .jnull),
         ("created_at".data, .jstr t.created_at.isoformat),
         ("completed_at".data,
           match t.completed_at with
           | some d => .jstr d.isoformat
           | none => .jnull),
         ("download_links".data, .jarr (t.download_links.map JValue.jstr))]

/-- Pydantic parse of a status string back into the enum. -/
def decodeStatus (j : JValue) : Option TaskStatus :=
  match j with
  | .jstr s =>
    if s = "pending".data then some .pending
    else if s = "processing".data then some .processing
    else if s = "completed".data then some .completed
    else if s = "failed".data then some .failed
    else none
  | _ => none

/-- Pydantic parse of one serialized chapter (with the `ge=1` field
constraints and the `model_post_init` page-order check). -/
def decodeChapter (j : JValue) : Option ChapterInfo :=
  match j with
  | .jobj fs =>
    match mapLookup fs "title".data, mapLookup fs "start_page".data,
        mapLookup fs "end_page".data with
    | some (.jstr t), some (.jnat sp), some (.jnat ep) =>
      if 1 ≤ sp ∧ sp ≤ ep then some ⟨t, sp, ep⟩ else none
    | _, _, _ => none
  | _ => none

/-- Pydantic parse of the serialized chapter list. -/
def decodeChapterList (js : List JValue) : Option (List ChapterInfo) :=
  match js with
  | [] => some []
  | j :: rest =>
    match decodeChapter j, decodeChapterList rest with
    | some c, some cs => some (c :: cs)
    | _, _ => none

/-- Pydantic parse of the serialized download-link list. -/
def decodeLinkList (js : List JValue) : Option (List Str) :=
  match js with
  | [] => some []
  | .jstr s :: rest =>
    match decodeLinkList rest with
    | some ss => some (s :: ss)
    | none => none
  | _ :: _ => none

/-- Parse of an optional datetime field as `_load_existing_tasks` performs
it: a missing or null (falsy) value stays absent, a string goes through
`fromisoformat`, anything else fails validation. -/
def decodeOptTime (j : Option JValue) : Option (Option Datetime) :=
  match j with
  | none => some none
  | some .jnull => some none
  | some (.jstr s) => (Datetime.fromisoformat s).map some
  | some _ => none

/-- Parse of the optional error-message field. -/
def decodeOptMsg (j : Option JValue) : Option (Option Str) :=
  match j with
  | none => some none
  | some .jnull => some none
  | some (.jstr s) => some (some s)
  | some _ => none

/-- Decoding of one persisted snapshot, as performed by
`_load_existing_tasks`: `json.load`, `fromisoformat` on the two datetime
fields, then `SplitTask(**data)` with pydantic validation (`progress`
bounded by 100 per the spec's 0-100 percentage field).  Any failure makes
the loader skip the file. -/
def decodeTask (j : JValue) : Option SplitTask :=
  match j with
  | .jobj fs =>
    match mapLookup fs "task_id".data, mapLookup fs "file_id".data,
        mapLookup fs "chapters".data, mapLookup fs "status".data,
        mapLookup fs "progress".data, mapLookup fs "created_at".data with
    | some (.jstr tid), some (.jstr fid), some (.jarr chs),
        some stj, some (.jnat p), some (.jstr cre) =>
      match decodeChapterList chs, decodeStatus stj,
          Datetime.fromisoformat cre,
          decodeOptTime (mapLookup fs "completed_at".data),
          decodeOptMsg (mapLookup fs "error_message".data) with
      | some chapters, some status, some created, some completed,
          some errmsg =>
        if p ≤ 100 then
          match mapLookup fs "download_links".data with
          | some (.jarr ls) =>
            match decodeLinkList ls with
            | some links =>
              some { task_id := tid
                     file_id := fid
                     chapters := chapters
                     status := status
                     progress := p
                     error_message := errmsg
                     created_at := created
                     completed_at := completed
                     download_links := links }
            | none => none
          | none =>
            some { task_id := tid
                   file_id := fid
                   chapters := chapters
                   status := status
                   progress := p
                   error_message := errmsg
                   created_at := created
                   completed_at := completed
                   download_links := [] }
          | some _ => none
        else none
      | _, _, _, _, _ => none
    | _, _, _, _, _, _ => none
  | _ => none

/-- Embedding of `TaskService._load_existing_tasks`: decode every snapshot
in the tasks directory, skip the ones that fail to parse, and key each
loaded record in the in-memory map by the `task_id` stored in the record.
-/
def load_existing_tasks (disk : List (Str × JValue)) :
    List (Str × SplitTask) :=
  match disk with
  | [] => []
  | (_, j) :: rest =>
    match decodeTask j with
    | some t => (t.task_id, t) :: load_existing_tasks rest
    | none => load_existing_tasks rest

/-- The mutable state of `TaskService`: the in-memory task map
(`self.tasks`), the work queue contents (`None` is the stop sentinel), and
the on-disk per-task snapshot directory. -/
structure ServiceState where
  tasks : List (Str × SplitTask)
  queue : List (Option Str)
  disk : List (Str × JValue)

/-- Embedding of `TaskService._save_task`: overwrite the task's snapshot
file with the serialized record. -/
def save_task (st : ServiceState) (t : SplitTask) : ServiceState :=
  { st with disk := mapInsert st.disk t.task_id (SplitTask.toJson t) }

/-- Embedding of `TaskService.create_split_task`: build a fresh `pending`
record, store it in the map, persist it, and append its identifier to the
work queue.  `task_id` stands for the generated uuid, `now` for the
creation time. -/
def create_split_task (st : ServiceState) (task_id file_id : Str)
    (chapters : List ChapterInfo) (now : Datetime) :
    ServiceState × SplitTask :=
  let t := newTask task_id file_id chapters now
  let st1 := { st with tasks := mapInsert st.tasks task_id t }
  let st2 := save_task st1 t
  ({ st2 with queue := st2.queue ++ [some task_id] }, t)

/-- Validation errors reported synchronously at task creation. -/
inductive ApiError where
  | invalidInput
deriving DecidableEq, Repr

/-- Modelled from the spec: the request-layer creation entry point that
validates the chapter list is not part of the source files (the HTTP split
endpoint and the request schema are absent from the snapshot); the spec
states that creation fails with `InvalidInput` when `chapters` is empty
and otherwise builds, persists and enqueues the record. -/
def create_split_task_checked (st : ServiceState) (task_id file_id : Str)
    (chapters : List ChapterInfo) (now : Datetime) :
    ServiceState × Except ApiError SplitTask :=
  if chapters.isEmpty then
    (st, .error ApiError.invalidInput)
  else
    let r := create_split_task st task_id file_id chapters now
    (r.1, .ok r.2)

/-- The fixed cancellation message of `TaskService.cancel_task`. -/
def cancelMsg : Str := "任务已被取消".data

/-- Embedding of `TaskService.cancel_task`: a missing record or a terminal
record yields `false` and leaves everything unchanged; a `pending` or
`processing` record is force-transitioned to `failed` with the fixed
message and `completed_at = now`, persisted, and the call returns `true`.
-/
def cancel_task (st : ServiceState) (task_id : Str) (now : Datetime) :
    ServiceState × Bool :=
  match mapLookup st.tasks task_id with
  | none => (st, false)
  | some t =>
    if t.status = TaskStatus.pending ∨ t.status = TaskStatus.processing then
      let t2 := { t with
        status := TaskStatus.failed
        error_message := some cancelMsg
        completed_at := some now }
      (save_task { st with tasks := mapInsert st.tasks task_id t2 } t2, true)
    else
      (st, false)

/-- The removal test of `TaskService.cleanup_completed_tasks`: terminal
status and a `completed_at` strictly older than `now` minus the retention
window of `max_age_hours` hours. -/
def removableTask (now : Datetime) (max_age_hours : Nat)
    (t : SplitTask) : Bool :=
  decide (t.status = TaskStatus.completed ∨ t.status = TaskStatus.failed) &&
    match t.completed_at with
    | some d => decide ((d.stamp : Int) < (now.stamp : Int) - max_age_hours * 3600)
    | none => false

/-- Embedding of `TaskService.cleanup_completed_tasks`: collect the
identifiers of removable records, then delete each from the in-memory map
and from the snapshot directory; return the number removed. -/
def cleanup_completed_tasks (st : ServiceState) (max_age_hours : Nat)
    (now : Datetime) : ServiceState × Nat :=
  let toRemove :=
    (st.tasks.filter (fun kv => removableTask now max_age_hours kv.2)).map
      (fun kv => kv.1)
  let st2 := toRemove.foldl
    (fun s id => { s with tasks := mapErase s.tasks id, disk := mapErase s.disk id })
    st
  (st2, toRemove.length)

/-- Descending insertion by `created_at` (the model of
`tasks.sort(key=lambda x: x.created_at, reverse=True)`; only the
permutation and sortedness of the result are relied upon). -/
def insertDesc (t : SplitTask) : List SplitTask → List SplitTask
  | [] => [t]
  | u :: us =>
    if u.created_at.stamp < t.created_at.stamp then t :: u :: us
    else u :: insertDesc t us

/-- Sorting by `created_at` descending. -/
def sortDesc : List SplitTask → List SplitTask
  | [] => []
  | t :: ts => insertDesc t (sortDesc ts)

/-- Embedding of `TaskService.list_tasks`: take all records, filter by
`file_id` only when the argument is truthy in Python (present and
non-empty), and sort by creation time descending. -/
def list_tasks (st : ServiceState) (file_id : Option Str) :
    List SplitTask :=
  let ts := st.tasks.map (fun kv => kv.2)
  let ts :=
    match file_id with
    | none => ts
    | some f => if f = [] then ts else ts.filter (fun t => t.file_id = f)
  sortDesc ts

/-- The external-collaborator oracles one worker's task execution runs
against: existence of the source file, success of opening the PDF,
per-chapter success, and the completion clock. -/
structure Env where
  fileExists : Bool
  openOk : Bool
  chapterOk : Nat → ChapterInfo → Bool
  now : Datetime

/-- One full task execution as the worker performs it, leaving the final
record in the map and its serialized snapshot on disk. -/
def executeTask (e : Env) (st : ServiceState) (t : SplitTask) :
    ServiceState :=
  let fin := process_split_task_final e.fileExists e.openOk e.chapterOk e.now t
  save_task { st with tasks := mapInsert st.tasks t.task_id fin } fin

/-- Embedding of `TaskService._worker`: repeatedly dequeue; a `none` stop
sentinel ends the loop; an identifier that no longer resolves to a record,
or resolves to a record that is not `pending`, is skipped; otherwise the
task is executed to its terminal state.  All execution failures are
absorbed into the record (`executeTask` is total), so the loop always
proceeds to the next dequeue. -/
def worker_run (e : Env) (st : ServiceState) :
    List (Option Str) → ServiceState
  | [] => st
  | none :: _ => st
  | some id :: rest =>
    match mapLookup st.tasks id with
    | none => worker_run e st rest
    | some t =>
      if t.status = TaskStatus.pending then
        worker_run e (executeTask e st t) rest
      else
        worker_run e st rest

/-! Helper lemmas: the decimal codec. -/

theorem charDigit_digitChar : ∀ d : Nat, d < 10 → charDigit (digitChar d) = some d := by
  decide

theorem charsNatAux_append (xs ys : List Char) (acc : Nat) :
    charsNatAux acc (xs ++ ys) =
      match charsNatAux acc xs with
      | some a => charsNatAux a ys
      | none => none := by
  induction xs generalizing acc with
  | nil => rfl
  | cons c cs ih =>
    simp only [List.cons_append, charsNatAux]
    cases charDigit c with
    | none => rfl
    | some d => exact ih _

theorem charsNatAux_natCharsAux (f : Nat) :
    ∀ n acc, n ≤ f →
      charsNatAux acc (natCharsAux f n) =
        some (acc * 10 ^ (natCharsAux f n).length + n) := by
  induction f with
  | zero =>
    intro n acc hn
    interval_cases n
    simp [natCharsAux, charsNatAux]
  | succ f ih =>
    intro n acc hn
    match n with
    | 0 => simp [natCharsAux, charsNatAux]
    | m + 1 =>
      have hdiv : (m + 1) / 10 ≤ f := by
        have := Nat.div_lt_self (Nat.succ_pos m) (by norm_num : 1 < 10)
        omega
      have hmod : (m + 1) % 10 < 10 := Nat.mod_lt _ (by norm_num)
      have heq : natCharsAux (f + 1) (m + 1) =
          natCharsAux f ((m + 1) / 10) ++ [digitChar ((m + 1) % 10)] := rfl
      rw [heq, charsNatAux_append, ih _ acc hdiv]
      simp only [charsNatAux, charDigit_digitChar _ hmod, List.length_append,
        List.length_singleton]
      have harith : (acc * 10 ^ (natCharsAux f ((m + 1) / 10)).length + (m + 1) / 10) * 10
          + (m + 1) % 10
          = acc * 10 ^ ((natCharsAux f ((m + 1) / 10)).length + 1) + (m + 1) := by
        rw [Nat.pow_succ]
        have hdm := Nat.div_add_mod (m + 1) 10
        ring_nf
        omega
      rw [harith]

theorem charsNat_natRepr (n : Nat) : charsNat (natRepr n) = some n := by
  rcases Nat.eq_zero_or_pos n with h | h
  · subst h; rfl
  · have hne : n ≠ 0 := Nat.pos_iff_ne_zero.mp h
    simp only [natRepr, if_neg hne, charsNat, natChars]
    rw [charsNatAux_natCharsAux n n 0 (le_refl n)]
    simp

theorem fromisoformat_isoformat (d : Datetime) :
    Datetime.fromisoformat d.isoformat = some d := by
  simp only [Datetime.fromisoformat, Datetime.isoformat, charsNat_natRepr]
  rfl

/-! Helper lemmas: stripping and sanitizing. -/

theorem head?_dropWhile_false {α : Type} (p : α → Bool) (l : List α) :
    ∀ c, (List.dropWhile p l).head? = some c → p c = false := by
  intro c hc
  have h := List.head?_dropWhile_not p l
  rw [hc] at h
  exact h

theorem pyStrip_getLast?_false (cs : Str) :
    ∀ c, (pyStrip cs).getLast? = some c → c.isWhitespace = false := by
  intro c hc
  unfold pyStrip at hc
  rw [List.getLast?_reverse] at hc
  exact head?_dropWhile_false _ _ c hc

theorem pyStrip_head?_false (cs : Str) :
    ∀ c, (pyStrip cs).head? = some c → c.isWhitespace = false := by
  intro c hc
  unfold pyStrip at hc
  rw [List.head?_reverse] at hc
  obtain ⟨pfx, hpfx⟩ :=
    List.dropWhile_suffix (l := (cs.dropWhile Char.isWhitespace).reverse)
      Char.isWhitespace
  have hrev : ((cs.dropWhile Char.isWhitespace).reverse).getLast? = some c := by
    rw [← hpfx, List.getLast?_append, hc]
    rfl
  rw [List.getLast?_reverse] at hrev
  exact head?_dropWhile_false _ _ c hrev

theorem pyStrip_subset (cs : Str) : pyStrip cs ⊆ cs := by
  intro x hx
  unfold pyStrip at hx
  rw [List.mem_reverse] at hx
  have hx2 := (List.dropWhile_sublist Char.isWhitespace).subset hx
  rw [List.mem_reverse] at hx2
  exact (List.dropWhile_sublist Char.isWhitespace).subset hx2

theorem pyStrip_length_le (cs : Str) : (pyStrip cs).length ≤ cs.length := by
  unfold pyStrip
  rw [List.length_reverse]
  calc ((cs.dropWhile Char.isWhitespace).reverse.dropWhile Char.isWhitespace).length
      ≤ (cs.dropWhile Char.isWhitespace).reverse.length :=
        (List.dropWhile_sublist Char.isWhitespace).length_le
    _ = (cs.dropWhile Char.isWhitespace).length := List.length_reverse _
    _ ≤ cs.length := (List.dropWhile_sublist Char.isWhitespace).length_le

theorem replaceUnsafe_mem_safe (cs : Str) :
    ∀ c ∈ replaceUnsafe cs, c ∉ unsafeChars := by
  intro c hc
  rw [replaceUnsafe, List.mem_map] at hc
  obtain ⟨a, _, ha⟩ := hc
  by_cases hm : a ∈ unsafeChars
  · rw [if_pos hm] at ha
    subst ha
    decide
  · rw [if_neg hm] at ha
    subst ha
    exact hm

theorem sanitize_filename_eq (cs : Str) :
    sanitize_filename cs =
      if pyStrip (if (replaceUnsafe cs).length > 50 then (replaceUnsafe cs).take 50
          else replaceUnsafe cs) = []
      then pyStrip "chapter".data
      else pyStrip (if (replaceUnsafe cs).length > 50 then (replaceUnsafe cs).take 50
        else replaceUnsafe cs) := by
  unfold sanitize_filename
  by_cases h : pyStrip (if (replaceUnsafe cs).length > 50 then (replaceUnsafe cs).take 50
      else replaceUnsafe cs) = []
  · simp only [h, if_pos rfl, if_true]
  · simp only [h, if_neg h, if_false]

/-- C10: for every input string, the filename sanitizer returns a non-empty
string of length at most 50 that contains none of the characters
`< > : " / \ | ? *` and has no leading or trailing whitespace; on an empty
or whitespace-only input it returns the fixed fallback name "chapter". -/
theorem c10_sanitize_filename_props (cs : Str) :
    sanitize_filename cs ≠ [] ∧
    (sanitize_filename cs).length ≤ 50 ∧
    (∀ c ∈ sanitize_filename cs, c ∉ unsafeChars) ∧
    (∀ c, (sanitize_filename cs).head? = some c → c.isWhitespace = false) ∧
    (∀ c, (sanitize_filename cs).getLast? = some c → c.isWhitespace = false) ∧
    ((∀ c ∈ cs, c.isWhitespace = true) → sanitize_filename cs = "chapter".data) := by
  have hlen2 : (if (replaceUnsafe cs).length > 50 then (replaceUnsafe cs).take 50
      else replaceUnsafe cs).length ≤ 50 := by
    by_cases h : (replaceUnsafe cs).length > 50
    · rw [if_pos h, List.length_take]
      exact min_le_left _ _
    · rw [if_neg h]
      omega
  have hsub2 : (if (replaceUnsafe cs).length > 50 then (replaceUnsafe cs).take 50
      else replaceUnsafe cs) ⊆ replaceUnsafe cs := by
    by_cases h : (replaceUnsafe cs).length > 50
    · rw [if_pos h]
      exact List.take_subset _ _
    · rw [if_neg h]
      exact fun x hx => hx
  by_cases h3 : pyStrip (if (replaceUnsafe cs).length > 50 then (replaceUnsafe cs).take 50
      else replaceUnsafe cs) = []
  · rw [sanitize_filename_eq, if_pos h3]
    refine ⟨by decide, by decide, by decide, ?_, ?_, fun _ => by decide⟩
    · exact pyStrip_head?_false _
    · exact pyStrip_getLast?_false _
  · rw [sanitize_filename_eq, if_neg h3]
    refine ⟨h3, le_trans (pyStrip_length_le _) hlen2, ?_, pyStrip_head?_false _,
      pyStrip_getLast?_false _, ?_⟩
    · intro c hc
      exact replaceUnsafe_mem_safe cs c (hsub2 (pyStrip_subset _ hc))
    · intro hws
      exfalso
      apply h3
      have hall : ∀ c ∈ (if (replaceUnsafe cs).length > 50 then (replaceUnsafe cs).take 50
          else replaceUnsafe cs), c.isWhitespace = true := by
        intro c hc
        have hc2 := hsub2 hc
        rw [replaceUnsafe, List.mem_map] at hc2
        obtain ⟨a, ha, hac⟩ := hc2
        have haws := hws a ha
        have hanu : a ∉ unsafeChars := by
          intro hmem
          have : ∀ x ∈ unsafeChars, x.isWhitespace = false := by decide
          rw [this a hmem] at haws
          exact Bool.false_ne_true haws
        rw [if_neg hanu] at hac
        subst hac
        exact haws
      have hdw : (if (replaceUnsafe cs).length > 50 then (replaceUnsafe cs).take 50
          else replaceUnsafe cs).dropWhile Char.isWhitespace = [] :=
        List.dropWhile_eq_nil_iff.mpr hall
      rw [pyStrip, hdw]
      rfl

/-- Witness for C10 at the whitespace-only input "  ": the sanitizer
returns the fallback name. -/
theorem c10_witness :
    (∀ c ∈ ("  ".data : Str), c.isWhitespace = true) ∧
    sanitize_filename "  ".data = "chapter".data := by
  refine ⟨by decide, ?_⟩
  exact (c10_sanitize_filename_props "  ".data).2.2.2.2.2 (by decide)

/-! Helper lemmas: the per-chapter split loop. -/

theorem chapterProgress_mono (total : Nat) {i j : Nat} (h : i ≤ j) :
    chapterProgress total i ≤ chapterProgress total j :=
  Nat.div_le_div_right (Nat.mul_le_mul_right _ (by omega))

theorem chapterProgress_le_100 (total i : Nat) (h : i < total) :
    chapterProgress total i ≤ 100 := by
  unfold chapterProgress
  calc (i + 1) * 100 / total ≤ total * 100 / total :=
        Nat.div_le_div_right (Nat.mul_le_mul_right _ (by omega))
    _ = 100 := by
        rw [Nat.mul_comm]
        exact Nat.mul_div_cancel 100 (by omega)

theorem splitChapters_fst (total : Nat) (ok : Nat → ChapterInfo → Bool)
    (l : List ChapterInfo) : ∀ i : Nat,
    (splitChapters total ok i l).1 =
      ((List.enumFrom i l).filter (fun q => ok q.1 q.2)).map
        (fun q => mkFilename q.1 q.2.title) := by
  induction l with
  | nil => intro i; rfl
  | cons ch rest ih =>
    intro i
    simp only [splitChapters, List.enumFrom_cons, List.filter_cons]
    cases h : ok i ch with
    | true => simp [h, ih]
    | false => simp [h, ih]

theorem splitChapters_snd_mem (total : Nat) (ok : Nat → ChapterInfo → Bool)
    (l : List ChapterInfo) : ∀ (i p : Nat),
    p ∈ (splitChapters total ok i l).2 →
      ∃ j, i ≤ j ∧ j < i + l.length ∧ p = chapterProgress total j := by
  induction l with
  | nil => intro i p hp; simp [splitChapters] at hp
  | cons ch rest ih =>
    intro i p hp
    simp only [splitChapters] at hp
    by_cases h : ok i ch = true
    · rw [if_pos h] at hp
      rcases List.mem_cons.mp hp with hp | hp
      · exact ⟨i, le_refl i, by simp only [List.length_cons]; omega, hp⟩
      · obtain ⟨j, hj1, hj2, hj3⟩ := ih (i + 1) p hp
        exact ⟨j, by omega, by simp only [List.length_cons]; omega, hj3⟩
    · rw [if_neg h] at hp
      obtain ⟨j, hj1, hj2, hj3⟩ := ih (i + 1) p hp
      exact ⟨j, by omega, by simp only [List.length_cons]; omega, hj3⟩

theorem splitChapters_snd_sorted (total : Nat) (ok : Nat → ChapterInfo → Bool)
    (l : List ChapterInfo) : ∀ i : Nat,
    ((splitChapters total ok i l).2).Pairwise (· ≤ ·) := by
  induction l with
  | nil => intro i; simp [splitChapters]
  | cons ch rest ih =>
    intro i
    simp only [splitChapters]
    by_cases h : ok i ch = true
    · rw [if_pos h]
      refine List.Pairwise.cons ?_ (ih (i + 1))
      intro p hp
      obtain ⟨j, hj1, _, hj3⟩ := splitChapters_snd_mem total ok rest (i + 1) p hp
      rw [hj3]
      exact chapterProgress_mono total (by omega)
    · rw [if_neg h]
      exact ih (i + 1)

theorem splitChapters_fst_length_all (total : Nat) (ok : Nat → ChapterInfo → Bool)
    (l : List ChapterInfo) (i : Nat) (h : ∀ j ch, ok j ch = true) :
    (splitChapters total ok i l).1.length = l.length := by
  rw [splitChapters_fst]
  rw [List.filter_eq_self.mpr (fun a _ => h a.1 a.2)]
  simp

theorem processSnapshots_map_progress (es : List Nat) : ∀ t : SplitTask,
    (processSnapshots t es).map SplitTask.progress = es := by
  induction es with
  | nil => intro t; rfl
  | cons p ps ih => intro t; simp [processSnapshots, ih]

theorem processSnapshots_status (es : List Nat) : ∀ (t : SplitTask)
    (s : SplitTask), s ∈ processSnapshots t es → s.status = t.status := by
  induction es with
  | nil => intro t s hs; simp [processSnapshots] at hs
  | cons p ps ih =>
    intro t s hs
    simp only [processSnapshots, List.mem_cons] at hs
    rcases hs with hs | hs
    · rw [hs]
    · exact ih { t with progress := p } s hs

theorem update_task_progress_saves (tasks : List (Str × SplitTask)) :
    ∀ (id : Str) (u : SplitTask) (p : Nat), mapLookup tasks id = some u →
      (update_task_progress tasks id p).2 = true := by
  induction tasks with
  | nil => intro id u p h; simp [mapLookup] at h
  | cons kv rest ih =>
    obtain ⟨k2, v⟩ := kv
    intro id u p h
    simp only [mapLookup] at h
    simp only [update_task_progress]
    by_cases hk : k2 = id
    · rw [if_pos hk]
    · rw [if_neg hk] at h
      rw [if_neg hk]
      exact ih id u p h

theorem process_trace_mem (fe op : Bool) (ok : Nat → ChapterInfo → Bool)
    (now : Datetime) (t : SplitTask) :
    ∀ s ∈ process_split_task_trace fe op ok now t,
      s.status = TaskStatus.processing ∨
      (s.status = TaskStatus.completed ∧ s.progress = 100) ∨
      s.status = TaskStatus.failed := by
  intro s hs
  cases fe with
  | false =>
    rcases List.mem_cons.mp hs with rfl | hs2
    · left; rfl
    · rcases List.mem_cons.mp hs2 with rfl | hs3
      · right; right; rfl
      · exact absurd hs3 (List.not_mem_nil s)
  | true =>
    cases op with
    | false =>
      rcases List.mem_cons.mp hs with rfl | hs2
      · left; rfl
      · rcases List.mem_cons.mp hs2 with rfl | hs3
        · right; right; rfl
        · exact absurd hs3 (List.not_mem_nil s)
    | true =>
      rcases List.mem_cons.mp hs with rfl | hs2
      · left; rfl
      · rcases List.mem_append.mp hs2 with hs3 | hs3
        · left
          rw [processSnapshots_status _ _ s hs3]
        · rcases List.mem_cons.mp hs3 with rfl | hs4
          · right; left; exact ⟨rfl, rfl⟩
          · exact absurd hs4 (List.not_mem_nil s)

/-- C5 (amended): along every task lifecycle, progress is 0 whenever the
status is `pending`, and a `completed` record always carries progress 100;
however — contrary to the original claim — progress can equal 100 while
the status is still `processing`, namely at the final progress callback
just before the `completed` transition (see the separate counterexample).
A `failed` record is unconstrained. -/
theorem c5_progress_invariant (tid fid : Str) (chs : List ChapterInfo)
    (created : Datetime) (fe op : Bool) (ok : Nat → ChapterInfo → Bool)
    (now : Datetime) :
    ∀ s ∈ taskStates tid fid chs created fe op ok now,
      (s.status = TaskStatus.pending → s.progress = 0) ∧
      (s.status = TaskStatus.completed → s.progress = 100) := by
  intro s hs
  rcases List.mem_cons.mp hs with rfl | hs2
  · exact ⟨fun _ => rfl, fun h => by simp [newTask] at h⟩
  · have h3 := process_trace_mem fe op ok now _ s hs2
    constructor
    · intro hp
      rcases h3 with h | ⟨h1, h2⟩ | h
      · rw [hp] at h; exact absurd h (by decide)
      · rw [hp] at h1; exact absurd h1 (by decide)
      · rw [hp] at h; exact absurd h (by decide)
    · intro hc
      rcases h3 with h | h | h
      · rw [hc] at h; exact absurd h (by decide)
      · exact h.2
      · rw [hc] at h; exact absurd h (by decide)

/-- C5 counterexample: with a single chapter that splits successfully, the
snapshot persisted at the final progress callback is a reachable state
with status `processing` and progress 100, refuting "a task whose status
is Pending or Processing never has progress equal to 100". -/
theorem c5_counterexample :
    ({ task_id := "t1".data, file_id := "f1".data,
       chapters := [⟨"A".data, 1, 2⟩], status := TaskStatus.processing,
       progress := 100, error_message := none, created_at := ⟨1⟩,
       completed_at := none, download_links := [] } : SplitTask) ∈
      taskStates "t1".data "f1".data [⟨"A".data, 1, 2⟩] ⟨1⟩ true true
        (fun _ _ => true) ⟨9⟩ := by
  decide

/-- Witness for C5 at a concrete freshly created task: the created state
is `pending` with progress 0. -/
theorem c5_witness : (newTask "t0".data "f0".data [] ⟨3⟩).progress = 0 :=
  (c5_progress_invariant "t0".data "f0".data [] ⟨3⟩ true true
    (fun _ _ => true) ⟨4⟩ (newTask "t0".data "f0".data [] ⟨3⟩)
    (List.mem_cons_self _ _)).1 rfl

/-- C1 (amended): a task reaching `completed` always has progress 100, and
`download_links` stays empty unless the task completes; on a fully
successful run the links are one per chapter whose page-copy/save did not
raise, in chapter order — in particular one per chapter when every chapter
succeeds.  (The original claim — exactly one link per chapter on every
completion — fails because the per-chapter loop skips a chapter whose
save raises and still completes; see the separate counterexample.) -/
theorem c1_completed_download_links (fe op : Bool)
    (ok : Nat → ChapterInfo → Bool) (tid fid : Str)
    (chs : List ChapterInfo) (created now : Datetime) :
    ((process_split_task_final fe op ok now (newTask tid fid chs created)).status
        = TaskStatus.completed →
      (process_split_task_final fe op ok now (newTask tid fid chs created)).progress
        = 100) ∧
    ((process_split_task_final fe op ok now (newTask tid fid chs created)).status
        ≠ TaskStatus.completed →
      (process_split_task_final fe op ok now (newTask tid fid chs created)).download_links
        = []) ∧
    (fe = true → op = true →
      (process_split_task_final fe op ok now (newTask tid fid chs created)).status
        = TaskStatus.completed ∧
      (process_split_task_final fe op ok now (newTask tid fid chs created)).download_links
        = ((List.enumFrom 0 chs).filter (fun q => ok q.1 q.2)).map
            (fun q => mkFilename q.1 q.2.title) ∧
      ((∀ j ch, ok j ch = true) →
        (process_split_task_final fe op ok now
          (newTask tid fid chs created)).download_links.length = chs.length)) := by
  cases fe with
  | false =>
    refine ⟨?_, fun _ => rfl, fun hfe _ => absurd hfe (by decide)⟩
    intro h
    exact absurd h (by simp [process_split_task_final, newTask])
  | true =>
    cases op with
    | false =>
      refine ⟨?_, fun _ => rfl, fun _ hop => absurd hop (by decide)⟩
      intro h
      exact absurd h (by simp [process_split_task_final, split_pdf, newTask])
    | true =>
      refine ⟨fun _ => rfl, fun h => absurd rfl h, fun _ _ => ⟨rfl, ?_, ?_⟩⟩
      · show (splitChapters chs.length ok 0 chs).1 = _
        exact splitChapters_fst chs.length ok chs 0
      · intro hall
        show (splitChapters chs.length ok 0 chs).1.length = chs.length
        exact splitChapters_fst_length_all chs.length ok chs 0 hall

/-- C1 counterexample: two chapters, the first chapter's save raises and
the second succeeds; the task still reaches `completed` but carries one
download link for two chapters, refuting `len(download_links) ==
len(chapters)` on completion. -/
theorem c1_counterexample :
    (process_split_task_final true true (fun i _ => decide (i = 1)) ⟨9⟩
      (newTask "t1".data "f1".data [⟨"A".data, 1, 2⟩, ⟨"B".data, 3, 4⟩]
        ⟨1⟩)).status = TaskStatus.completed ∧
    (process_split_task_final true true (fun i _ => decide (i = 1)) ⟨9⟩
      (newTask "t1".data "f1".data [⟨"A".data, 1, 2⟩, ⟨"B".data, 3, 4⟩]
        ⟨1⟩)).chapters.length = 2 ∧
    (process_split_task_final true true (fun i _ => decide (i = 1)) ⟨9⟩
      (newTask "t1".data "f1".data [⟨"A".data, 1, 2⟩, ⟨"B".data, 3, 4⟩]
        ⟨1⟩)).download_links.length = 1 := by
  decide

/-- Witness for C1 at a concrete two-chapter task whose chapters all
succeed: the final record is `completed` with one link per chapter. -/
theorem c1_witness :
    (process_split_task_final true true (fun _ _ => true) ⟨9⟩
      (newTask "t2".data "f2".data [⟨"A".data, 1, 2⟩, ⟨"B".data, 3, 4⟩]
        ⟨1⟩)).status = TaskStatus.completed ∧
    (process_split_task_final true true (fun _ _ => true) ⟨9⟩
      (newTask "t2".data "f2".data [⟨"A".data, 1, 2⟩, ⟨"B".data, 3, 4⟩]
        ⟨1⟩)).download_links.length = 2 := by
  have h := (c1_completed_download_links true true (fun _ _ => true)
    "t2".data "f2".data [⟨"A".data, 1, 2⟩, ⟨"B".data, 3, 4⟩] ⟨1⟩ ⟨9⟩).2.2
    rfl rfl
  refine ⟨h.1, ?_⟩
  rw [h.2.2 (fun j ch => rfl)]
  rfl

/-- C6: the values handed to the progress callback during one split are
monotonically non-decreasing natural numbers bounded by 100 (hence integer
percentages in 0–100), each callback overwrites the record's progress with
exactly the reported value in order (one persisted snapshot per call), and
`_update_task_progress` triggers a persistence write whenever the task is
present in the map — which holds for every callback of a task being
processed. -/
theorem c6_progress_callbacks (ok : Nat → ChapterInfo → Bool)
    (chs : List ChapterInfo) (t : SplitTask)
    (tasks : List (Str × SplitTask)) (id : Str) (u : SplitTask) (p : Nat) :
    ((splitChapters chs.length ok 0 chs).2).Pairwise (· ≤ ·) ∧
    (∀ q ∈ (splitChapters chs.length ok 0 chs).2, q ≤ 100) ∧
    ((processSnapshots t (splitChapters chs.length ok 0 chs).2).map
        SplitTask.progress = (splitChapters chs.length ok 0 chs).2) ∧
    (mapLookup tasks id = some u →
      (update_task_progress tasks id p).2 = true) := by
  refine ⟨splitChapters_snd_sorted chs.length ok chs 0, ?_,
    processSnapshots_map_progress _ t, update_task_progress_saves tasks id u p⟩
  intro q hq
  obtain ⟨j, _, hj2, hj3⟩ := splitChapters_snd_mem chs.length ok chs 0 q hq
  rw [hj3]
  exact chapterProgress_le_100 chs.length j (by omega)

/-- Witness for C6 at a concrete one-task store: the lookup succeeds and
the progress callback triggers a persistence write. -/
theorem c6_witness :
    mapLookup [("t1".data, newTask "t1".data "f".data [] ⟨1⟩)] "t1".data =
      some (newTask "t1".data "f".data [] ⟨1⟩) ∧
    (update_task_progress [("t1".data, newTask "t1".data "f".data [] ⟨1⟩)]
      "t1".data 50).2 = true := by
  refine ⟨by decide, ?_⟩
  exact (c6_progress_callbacks (fun _ _ => true) []
    (newTask "t1".data "f".data [] ⟨1⟩)
    [("t1".data, newTask "t1".data "f".data [] ⟨1⟩)] "t1".data
    (newTask "t1".data "f".data [] ⟨1⟩) 50).2.2.2 (by decide)

/-- C2: creating a split task with an empty chapters list fails
synchronously with `InvalidInput`, and no task record is created,
persisted, or enqueued.  The validating request layer is modelled from the
spec (the split endpoint is absent from the source snapshot); the embedded
`create_split_task` is only reached with a validated, non-empty list. -/
theorem c2_create_empty_chapters_rejected (st : ServiceState)
    (task_id file_id : Str) (now : Datetime) :
    (create_split_task_checked st task_id file_id [] now).2
      = Except.error ApiError.invalidInput ∧
    (create_split_task_checked st task_id file_id [] now).1.tasks = st.tasks ∧
    (create_split_task_checked st task_id file_id [] now).1.disk = st.disk ∧
    (create_split_task_checked st task_id file_id [] now).1.queue = st.queue :=
  ⟨rfl, rfl, rfl, rfl⟩

/-- C3: `cancel_task` returns success exactly when the record exists with
status `pending` or `processing`; in that case the record becomes `failed`
with the fixed message "任务已被取消" and `completed_at = now`, and the
updated record is persisted to its snapshot file; in every other case the
call returns failure and the whole state is unchanged (so repeated cancels
of a terminal task are failing no-ops). -/
theorem c3_cancel_task_spec (st : ServiceState) (id : Str) (now : Datetime) :
    ((cancel_task st id now).2 = true ↔
      ∃ t, mapLookup st.tasks id = some t ∧
        (t.status = TaskStatus.pending ∨ t.status = TaskStatus.processing)) ∧
    (∀ t, mapLookup st.tasks id = some t →
      (t.status = TaskStatus.pending ∨ t.status = TaskStatus.processing) →
      (cancel_task st id now).1.tasks =
        mapInsert st.tasks id
          { t with
            status := TaskStatus.failed
            error_message := some cancelMsg
            completed_at := some now } ∧
      (cancel_task st id now).1.disk =
        mapInsert st.disk t.task_id
          (SplitTask.toJson { t with
            status := TaskStatus.failed
            error_message := some cancelMsg
            completed_at := some now }) ∧
      (cancel_task st id now).1.queue = st.queue) ∧
    ((cancel_task st id now).2 = false → (cancel_task st id now).1 = st) := by
  cases h : mapLookup st.tasks id with
  | none =>
    have hc : cancel_task st id now = (st, false) := by
      simp only [cancel_task, h]
    rw [hc]
    refine ⟨⟨fun hf => absurd hf Bool.false_ne_true, ?_⟩, ?_, fun _ => rfl⟩
    · rintro ⟨t, ht, _⟩
      exact Option.noConfusion ht
    · intro t ht _
      exact Option.noConfusion ht
  | some t =>
    by_cases hstat : t.status = TaskStatus.pending ∨ t.status = TaskStatus.processing
    · have hc : cancel_task st id now =
          (save_task
            { st with
              tasks := mapInsert st.tasks id
                { t with
                  status := TaskStatus.failed
                  error_message := some cancelMsg
                  completed_at := some now } }
            { t with
              status := TaskStatus.failed
              error_message := some cancelMsg
              completed_at := some now }, true) := by
        simp only [cancel_task, h, if_pos hstat]
      rw [hc]
      refine ⟨iff_of_true rfl ⟨t, rfl, hstat⟩, ?_, fun hf => nomatch hf⟩
      intro t2 ht2 _
      cases Option.some.inj ht2
      exact ⟨rfl, rfl, rfl⟩
    · have hc : cancel_task st id now = (st, false) := by
        simp only [cancel_task, h, if_neg hstat]
      rw [hc]
      refine ⟨⟨fun hf => absurd hf Bool.false_ne_true, ?_⟩, ?_, fun _ => rfl⟩
      · rintro ⟨t2, ht2, hs2⟩
        cases Option.some.inj ht2
        exact absurd hs2 hstat
      · intro t2 ht2 hs2
        cases Option.some.inj ht2
        exact absurd hs2 hstat

/-- Witness for C3 at a concrete one-task store with a `pending` record:
cancel succeeds and rewrites the record to the failed/cancelled form. -/
theorem c3_witness :
    (cancel_task ⟨[("t1".data, newTask "t1".data "f".data [] ⟨1⟩)], [], []⟩
      "t1".data ⟨7⟩).1.tasks =
      mapInsert [("t1".data, newTask "t1".data "f".data [] ⟨1⟩)] "t1".data
        { newTask "t1".data "f".data [] ⟨1⟩ with
          status := TaskStatus.failed
          error_message := some cancelMsg
          completed_at := some ⟨7⟩ } := by
  exact ((c3_cancel_task_spec
    ⟨[("t1".data, newTask "t1".data "f".data [] ⟨1⟩)], [], []⟩ "t1".data
    ⟨7⟩).2.1 (newTask "t1".data "f".data [] ⟨1⟩) (by decide)
    (Or.inl rfl)).1

/-- C7: a worker that dequeues an identifier with no corresponding record,
or whose record is no longer `pending`, skips it without modifying any
state and proceeds with the remaining queue; a `pending` record is
executed and the loop likewise proceeds — for every oracle environment,
including failing ones, since every execution ends in a terminal
(`completed` or `failed`) record rather than an escaping error. -/
theorem c7_worker_skip_and_continue (e : Env) (st : ServiceState)
    (id : Str) (rest : List (Option Str)) :
    (mapLookup st.tasks id = none →
      worker_run e st (some id :: rest) = worker_run e st rest) ∧
    (∀ t, mapLookup st.tasks id = some t → t.status ≠ TaskStatus.pending →
      worker_run e st (some id :: rest) = worker_run e st rest) ∧
    (∀ t, mapLookup st.tasks id = some t → t.status = TaskStatus.pending →
      worker_run e st (some id :: rest) =
        worker_run e (executeTask e st t) rest) ∧
    (∀ t : SplitTask,
      (process_split_task_final e.fileExists e.openOk e.chapterOk e.now
          t).status = TaskStatus.completed ∨
      (process_split_task_final e.fileExists e.openOk e.chapterOk e.now
          t).status = TaskStatus.failed) := by
  refine ⟨?_, ?_, ?_, ?_⟩
  · intro h
    simp only [worker_run, h]
  · intro t h hs
    simp only [worker_run, h]
    rw [if_neg hs]
  · intro t h hs
    simp only [worker_run, h]
    rw [if_pos hs]
  · intro t
    cases hef : e.fileExists with
    | false => right; simp [process_split_task_final, hef]
    | true =>
      cases hop : e.openOk with
      | false => right; simp [process_split_task_final, split_pdf, hef, hop]
      | true => left; simp [process_split_task_final, split_pdf, hef, hop]

/-- Witness for C7 at a concrete empty store: an unknown identifier is
skipped and the loop continues with the rest of the queue. -/
theorem c7_witness :
    mapLookup ([] : List (Str × SplitTask)) "x".data = none ∧
    worker_run ⟨true, true, fun _ _ => true, ⟨5⟩⟩ ⟨[], [], []⟩
      (some "x".data :: []) =
      worker_run ⟨true, true, fun _ _ => true, ⟨5⟩⟩ ⟨[], [], []⟩ [] := by
  refine ⟨rfl, ?_⟩
  exact (c7_worker_skip_and_continue ⟨true, true, fun _ _ => true, ⟨5⟩⟩
    ⟨[], [], []⟩ "x".data []).1 rfl

/-! Helper lemmas: map deletion and the cleanup sweep. -/

theorem cleanup_foldl_split (ids : List Str) : ∀ st : ServiceState,
    ids.foldl (fun s id =>
      { s with tasks := mapErase s.tasks id, disk := mapErase s.disk id }) st =
      { st with
        tasks := ids.foldl mapErase st.tasks
        disk := ids.foldl mapErase st.disk } := by
  induction ids with
  | nil => intro st; rfl
  | cons id ids ih =>
    intro st
    rw [List.foldl_cons, List.foldl_cons, List.foldl_cons, ih]

theorem foldl_mapErase_eq_filter {β : Type} (ids : List Str) :
    ∀ m : List (Str × β),
      ids.foldl mapErase m = m.filter (fun kv => decide (kv.1 ∉ ids)) := by
  induction ids with
  | nil =>
    intro m
    rw [List.foldl_nil]
    refine (List.filter_eq_self.mpr ?_).symm
    intro kv _
    simp
  | cons id ids ih =>
    intro m
    rw [List.foldl_cons, ih, mapErase, List.filter_filter]
    apply List.filter_congr
    intro kv _
    by_cases h1 : kv.1 = id <;> by_cases h2 : kv.1 ∈ ids <;>
      simp [h1, h2]

theorem nodup_key_eq {β : Type} : ∀ m : List (Str × β),
    (m.map (fun kv => kv.1)).Nodup →
    ∀ kv1 ∈ m, ∀ kv2 ∈ m, kv1.1 = kv2.1 → kv1 = kv2 := by
  intro m
  induction m with
  | nil =>
    intro _ kv1 h1
    exact absurd h1 (List.not_mem_nil kv1)
  | cons kv rest ih =>
    intro hnd kv1 h1 kv2 h2 heq
    simp only [List.map_cons, List.nodup_cons] at hnd
    rcases List.mem_cons.mp h1 with rfl | h1r
    · rcases List.mem_cons.mp h2 with rfl | h2r
      · rfl
      · exfalso
        apply hnd.1
        rw [heq]
        exact List.mem_map_of_mem (fun kv => kv.1) h2r
    · rcases List.mem_cons.mp h2 with rfl | h2r
      · exfalso
        apply hnd.1
        rw [← heq]
        exact List.mem_map_of_mem (fun kv => kv.1) h1r
      · exact ih hnd.2 kv1 h1r kv2 h2r heq

theorem mapLookup_filter {β : Type} (p : Str × β → Bool) :
    ∀ (m : List (Str × β)) (k : Str) (v : β),
      mapLookup m k = some v → p (k, v) = true →
      mapLookup (m.filter p) k = some v := by
  intro m
  induction m with
  | nil =>
    intro k v hv
    exact absurd hv (by simp [mapLookup])
  | cons kv rest ih =>
    intro k v hv hp
    obtain ⟨k2, v2⟩ := kv
    simp only [mapLookup] at hv
    rw [List.filter_cons]
    by_cases hk : k2 = k
    · rw [if_pos hk] at hv
      cases Option.some.inj hv
      subst hk
      rw [if_pos hp]
      simp [mapLookup]
    · rw [if_neg hk] at hv
      by_cases hpv : p (k2, v2) = true
      · rw [if_pos hpv]
        simp only [mapLookup]
        rw [if_neg hk]
        exact ih k v hv hp
      · rw [if_neg hpv]
        exact ih k v hv hp

theorem removable_false_of_active (now : Datetime) (h : Nat) (t : SplitTask)
    (hs : t.status = TaskStatus.pending ∨ t.status = TaskStatus.processing) :
    removableTask now h t = false := by
  rcases hs with hs | hs <;> simp [removableTask, hs]

/-- C4: the cleanup sweep removes exactly the records that are terminal
(`completed` or `failed`) with a `completed_at` older than the retention
window, deleting both the in-memory entry and the on-disk snapshot keyed
by a removed identifier, and returns the number removed; every `pending`
or `processing` record survives unmodified regardless of age (stated for
stores with distinct keys, as Python dicts guarantee). -/
theorem c4_cleanup_spec (st : ServiceState) (hours : Nat) (now : Datetime)
    (hkeys : (st.tasks.map (fun kv => kv.1)).Nodup) :
    (cleanup_completed_tasks st hours now).1.tasks =
      st.tasks.filter (fun kv => ! removableTask now hours kv.2) ∧
    (cleanup_completed_tasks st hours now).2 =
      (st.tasks.filter (fun kv => removableTask now hours kv.2)).length ∧
    (cleanup_completed_tasks st hours now).1.disk =
      st.disk.filter (fun kv =>
        decide (kv.1 ∉ (st.tasks.filter
          (fun kv2 => removableTask now hours kv2.2)).map (fun kv2 => kv2.1))) ∧
    (cleanup_completed_tasks st hours now).1.queue = st.queue ∧
    (∀ id t, mapLookup st.tasks id = some t →
      (t.status = TaskStatus.pending ∨ t.status = TaskStatus.processing) →
      mapLookup (cleanup_completed_tasks st hours now).1.tasks id = some t) := by
  have h1 : (cleanup_completed_tasks st hours now).1 =
      { st with
        tasks := ((st.tasks.filter (fun kv => removableTask now hours kv.2)).map
          (fun kv => kv.1)).foldl mapErase st.tasks
        disk := ((st.tasks.filter (fun kv => removableTask now hours kv.2)).map
          (fun kv => kv.1)).foldl mapErase st.disk } :=
    cleanup_foldl_split _ st
  have htasks : (cleanup_completed_tasks st hours now).1.tasks =
      st.tasks.filter (fun kv => ! removableTask now hours kv.2) := by
    rw [h1]
    show ((st.tasks.filter (fun kv => removableTask now hours kv.2)).map
      (fun kv => kv.1)).foldl mapErase st.tasks = _
    rw [foldl_mapErase_eq_filter]
    apply List.filter_congr
    intro kv hkv
    by_cases hr : removableTask now hours kv.2 = true
    · have hin : kv.1 ∈ (st.tasks.filter
          (fun kv2 => removableTask now hours kv2.2)).map (fun kv2 => kv2.1) :=
        List.mem_map_of_mem (fun kv2 => kv2.1) (List.mem_filter.mpr ⟨hkv, hr⟩)
      simp [hin, hr]
    · have hnotin : kv.1 ∉ (st.tasks.filter
          (fun kv2 => removableTask now hours kv2.2)).map (fun kv2 => kv2.1) := by
        intro hmem
        rw [List.mem_map] at hmem
        obtain ⟨kv2, hkv2, hkeq⟩ := hmem
        have hkv2m := List.mem_filter.mp hkv2
        have heq := nodup_key_eq st.tasks hkeys kv hkv kv2 hkv2m.1 hkeq.symm
        rw [heq] at hr
        exact hr hkv2m.2
      rw [Bool.not_eq_true] at hr
      simp [hnotin, hr]
  refine ⟨htasks, ?_, ?_, ?_, ?_⟩
  · show ((st.tasks.filter (fun kv => removableTask now hours kv.2)).map
      (fun kv => kv.1)).length = _
    rw [List.length_map]
  · rw [h1]
    show ((st.tasks.filter (fun kv => removableTask now hours kv.2)).map
      (fun kv => kv.1)).foldl mapErase st.disk = _
    exact foldl_mapErase_eq_filter _ st.disk
  · rw [h1]
  · intro id t hl hs
    rw [htasks]
    refine mapLookup_filter _ st.tasks id t hl ?_
    simp [removable_false_of_active now hours t hs]

/-- Witness for C4 at a concrete two-task store (one stale completed task,
one pending task): one record is removed and the pending record survives.
-/
theorem c4_witness :
    (([("t1".data, { newTask "t1".data "f".data [] ⟨0⟩ with
          status := TaskStatus.completed
          progress := 100
          completed_at := some ⟨0⟩ }),
        ("t2".data, newTask "t2".data "f".data [] ⟨0⟩)] :
        List (Str × SplitTask)).map (fun kv => kv.1)).Nodup ∧
    (cleanup_completed_tasks
      ⟨[("t1".data, { newTask "t1".data "f".data [] ⟨0⟩ with
          status := TaskStatus.completed
          progress := 100
          completed_at := some ⟨0⟩ }),
        ("t2".data, newTask "t2".data "f".data [] ⟨0⟩)], [], []⟩
      1 ⟨1000000⟩).2 = 1 ∧
    mapLookup (cleanup_completed_tasks
      ⟨[("t1".data, { newTask "t1".data "f".data [] ⟨0⟩ with
          status := TaskStatus.completed
          progress := 100
          completed_at := some ⟨0⟩ }),
        ("t2".data, newTask "t2".data "f".data [] ⟨0⟩)], [], []⟩
      1 ⟨1000000⟩).1.tasks "t2".data =
      some (newTask "t2".data "f".data [] ⟨0⟩) := by
  have h := c4_cleanup_spec
    ⟨[("t1".data, { newTask "t1".data "f".data [] ⟨0⟩ with
        status := TaskStatus.completed
        progress := 100
        completed_at := some ⟨0⟩ }),
      ("t2".data, newTask "t2".data "f".data [] ⟨0⟩)], [], []⟩
    1 ⟨1000000⟩ (by decide)
  refine ⟨by decide, ?_, ?_⟩
  · rw [h.2.1]
    decide
  · exact h.2.2.2.2 "t2".data (newTask "t2".data "f".data [] ⟨0⟩)
      (by decide) (Or.inl rfl)

/-! Helper lemmas: descending insertion sort on creation time. -/

theorem insertDesc_perm (t : SplitTask) : ∀ l : List SplitTask,
    (insertDesc t l).Perm (t :: l) := by
  intro l
  induction l with
  | nil => exact List.Perm.refl _
  | cons u us ih =>
    simp only [insertDesc]
    by_cases h : u.created_at.stamp < t.created_at.stamp
    · rw [if_pos h]
    · rw [if_neg h]
      exact (List.Perm.cons u ih).trans (List.Perm.swap t u us)

theorem mem_insertDesc (t : SplitTask) (l : List SplitTask) (s : SplitTask) :
    s ∈ insertDesc t l ↔ s = t ∨ s ∈ l := by
  rw [(insertDesc_perm t l).mem_iff]
  exact List.mem_cons

theorem insertDesc_sorted (t : SplitTask) : ∀ l : List SplitTask,
    l.Pairwise (fun a b => b.created_at.stamp ≤ a.created_at.stamp) →
    (insertDesc t l).Pairwise
      (fun a b => b.created_at.stamp ≤ a.created_at.stamp) := by
  intro l
  induction l with
  | nil =>
    intro _
    simp [insertDesc]
  | cons u us ih =>
    intro hp
    rw [List.pairwise_cons] at hp
    simp only [insertDesc]
    by_cases h : u.created_at.stamp < t.created_at.stamp
    · rw [if_pos h]
      refine List.Pairwise.cons ?_ (List.Pairwise.cons hp.1 hp.2)
      intro b hb
      rcases List.mem_cons.mp hb with rfl | hb2
      · omega
      · have := hp.1 b hb2
        omega
    · rw [if_neg h]
      refine List.Pairwise.cons ?_ (ih hp.2)
      intro b hb
      rcases (mem_insertDesc t us b).mp hb with rfl | hb2
      · omega
      · exact hp.1 b hb2

theorem sortDesc_perm : ∀ l : List SplitTask, (sortDesc l).Perm l := by
  intro l
  induction l with
  | nil => exact List.Perm.refl _
  | cons t ts ih =>
    simp only [sortDesc]
    exact (insertDesc_perm t (sortDesc ts)).trans (List.Perm.cons t ih)

theorem sortDesc_sorted : ∀ l : List SplitTask,
    (sortDesc l).Pairwise (fun a b => b.created_at.stamp ≤ a.created_at.stamp) := by
  intro l
  induction l with
  | nil => simp [sortDesc]
  | cons t ts ih =>
    simp only [sortDesc]
    exact insertDesc_sorted t (sortDesc ts) ih

/-- C9 (amended): `list_tasks` returns, up to the descending sort by
creation time, exactly all stored records when the filter is absent — or,
matching Python truthiness, when it is the empty string — and exactly the
records with the given `file_id` when the filter is a non-empty string;
the output is ordered by `created_at` descending.  (The original claim
fails for the present-but-empty filter, which the code treats as no
filter; see the separate counterexample.) -/
theorem c9_list_tasks_spec (st : ServiceState) (fid : Option Str) :
    (list_tasks st fid).Perm
      (match fid with
       | none => st.tasks.map (fun kv => kv.2)
       | some f =>
         if f = [] then st.tasks.map (fun kv => kv.2)
         else (st.tasks.map (fun kv => kv.2)).filter
           (fun t => decide (t.file_id = f))) ∧
    (list_tasks st fid).Pairwise
      (fun a b => b.created_at.stamp ≤ a.created_at.stamp) := by
  constructor
  · cases fid with
    | none => exact sortDesc_perm _
    | some f => exact sortDesc_perm _
  · exact sortDesc_sorted _

/-- C9 counterexample: with a stored record owned by file "a" and the
present-but-empty filter `some ""`, `list_tasks` returns that record even
though it does not match the filter, refuting "returns exactly the records
matching the filter" as stated for every optional filter. -/
theorem c9_counterexample :
    list_tasks ⟨[("t1".data, newTask "t1".data "a".data [] ⟨5⟩)], [], []⟩
      (some []) = [newTask "t1".data "a".data [] ⟨5⟩] ∧
    (newTask "t1".data "a".data [] ⟨5⟩).file_id ≠ ([] : Str) := by
  exact ⟨rfl, by decide⟩

/-! Helper lemmas: serialization round trip. -/

theorem decodeStatus_toStr (s : TaskStatus) :
    decodeStatus (.jstr s.toStr) = some s := by
  cases s <;> rfl

theorem decodeChapter_toJson (c : ChapterInfo) (hv : c.valid) :
    decodeChapter (ChapterInfo.toJson c) = some c := by
  have h : decodeChapter (ChapterInfo.toJson c) =
      if 1 ≤ c.start_page ∧ c.start_page ≤ c.end_page then
        some ⟨c.title, c.start_page, c.end_page⟩
      else none := rfl
  obtain ⟨h1, h2⟩ := hv
  rw [h, if_pos ⟨h1, h2⟩]

theorem decodeChapterList_map (cs : List ChapterInfo)
    (hv : ∀ c ∈ cs, c.valid) :
    decodeChapterList (cs.map ChapterInfo.toJson) = some cs := by
  induction cs with
  | nil => rfl
  | cons c rest ih =>
    simp only [List.map_cons, decodeChapterList]
    rw [decodeChapter_toJson c (hv c (List.mem_cons_self _ _)),
      ih (fun x hx => hv x (List.mem_cons_of_mem _ hx))]

theorem decodeLinkList_map (ls : List Str) :
    decodeLinkList (ls.map JValue.jstr) = some ls := by
  induction ls with
  | nil => rfl
  | cons s rest ih =>
    simp only [List.map_cons, decodeLinkList]
    rw [ih]

theorem decodeTask_toJson (t : SplitTask) (hp : t.progress ≤ 100)
    (hc : ∀ c ∈ t.chapters, c.valid) :
    decodeTask (SplitTask.toJson t) = some t := by
  obtain ⟨tid, fid, chs, stt, prog, errm, cre, compl, links⟩ := t
  cases compl <;> cases errm <;>
    (simp +decide only [SplitTask.toJson, decodeTask, mapLookup, if_true,
      if_false]
     simp only [decodeStatus_toStr, decodeChapterList_map chs hc,
       fromisoformat_isoformat, decodeLinkList_map, decodeOptTime,
       decodeOptMsg, Option.map_some']
     rw [if_pos (show prog ≤ 100 from hp)])

/-- C8: persisting a task record with `_save_task` and reloading the
resulting snapshot with `_load_existing_tasks` (restart simulation) yields
the record back, equal in all nine fields, keyed by its `task_id` — stated
for records within the pydantic model's range (progress at most 100 and
valid chapter page bounds), which holds for every record the service
builds. -/
theorem c8_save_load_roundtrip (t : SplitTask) (hp : t.progress ≤ 100)
    (hc : ∀ c ∈ t.chapters, c.valid) :
    load_existing_tasks [(t.task_id, SplitTask.toJson t)] =
      [(t.task_id, t)] := by
  simp only [load_existing_tasks, decodeTask_toJson t hp hc]

/-- Witness for C8 at a concrete mid-flight record with every optional
field populated: the save/load round trip returns it unchanged. -/
theorem c8_witness :
    ({ newTask "t1".data "f1".data [⟨"A".data, 1, 3⟩] ⟨5⟩ with
        status := TaskStatus.processing
        progress := 42
        error_message := some "x".data
        completed_at := some ⟨8⟩
        download_links := ["01_A.pdf".data] } : SplitTask).progress ≤ 100 ∧
    (∀ c ∈ ({ newTask "t1".data "f1".data [⟨"A".data, 1, 3⟩] ⟨5⟩ with
        status := TaskStatus.processing
        progress := 42
        error_message := some "x".data
        completed_at := some ⟨8⟩
        download_links := ["01_A.pdf".data] } : SplitTask).chapters,
      c.valid) ∧
    load_existing_tasks
      [(({ newTask "t1".data "f1".data [⟨"A".data, 1, 3⟩] ⟨5⟩ with
          status := TaskStatus.processing
          progress := 42
          error_message := some "x".data
          completed_at := some ⟨8⟩
          download_links := ["01_A.pdf".data] } : SplitTask).task_id,
        SplitTask.toJson
          { newTask "t1".data "f1".data [⟨"A".data, 1, 3⟩] ⟨5⟩ with
            status := TaskStatus.processing
            progress := 42
            error_message := some "x".data
            completed_at := some ⟨8⟩
            download_links := ["01_A.pdf".data] })] =
      [(({ newTask "t1".data "f1".data [⟨"A".data, 1, 3⟩] ⟨5⟩ with
          status := TaskStatus.processing
          progress := 42
          error_message := some "x".data
          completed_at := some ⟨8⟩
          download_links := ["01_A.pdf".data] } : SplitTask).task_id,
        { newTask "t1".data "f1".data [⟨"A".data, 1, 3⟩] ⟨5⟩ with
          status := TaskStatus.processing
          progress := 42
          error_message := some "x".data
          completed_at := some ⟨8⟩
          download_links := ["01_A.pdf".data] })] := by
  refine ⟨by decide, ?_, ?_⟩
  · intro c hcm
    rcases List.mem_singleton.mp hcm with rfl
    exact ⟨by decide, by decide⟩
  · refine c8_save_load_roundtrip _ (by decide) ?_
    intro c hcm
    rcases List.mem_singleton.mp hcm with rfl
    exact ⟨by decide, by decide⟩
